import Mathlib

/-!
# MiniRast: verification of `src/rast.c`

A shallow embedding of the triangle rasterizer in `src/rast.c`.

The C program computes with IEEE binary32 floats, but every quantity that
appears in edge construction and edge evaluation is a quarter-integer whose
absolute value times 4 stays far below 2^24, so every such float operation is
exact.  We therefore embed the arithmetic in `ℚ`; for the weight divisions
(`d / area`) the embedding is the exact rational value the C code approximates.

The pixel buffer (a `malloc`ed byte array in C) is embedded as a total
function `Nat → Nat` from byte index to byte value, with `memset 0` as the
constant-zero function and each array store as a pointwise update.
-/

namespace MiniRast

/-- `#define WIDTH 512` -/
def WIDTH : Nat := 512

/-- `#define HEIGHT 512` -/
def HEIGHT : Nat := 512

/-- `vec2_t`: an x/y coordinate pair (C `float`s, embedded as `ℚ`). -/
structure vec2 where
  x : ℚ
  y : ℚ
deriving DecidableEq

/-- `edge_t`: the three coefficients of a linear edge function. -/
structure edge where
  a : ℚ
  b : ℚ
  c : ℚ
deriving DecidableEq

/-- `init_edge`: builds an edge from two vector positions (rast.c lines 98-109). -/
def init_edge (v0 v1 : vec2) : edge :=
  { a := v0.y - v1.y
    b := v1.x - v0.x
    c := v0.x * v1.y - v0.y * v1.x }

/-- `test_edge`: evaluates an edge function at a point (rast.c lines 111-113). -/
def test_edge (e : edge) (p : vec2) : ℚ :=
  e.a * p.x + e.b * p.y + e.c

/-- `v0 = { WIDTH/2.0f-0.5f , 0.5f }` -/
def v0 : vec2 := ⟨(WIDTH : ℚ) / 2 - 1/2, 1/2⟩

/-- `v1 = { 0.5f , HEIGHT-0.5f }` -/
def v1 : vec2 := ⟨1/2, (HEIGHT : ℚ) - 1/2⟩

/-- `v2 = { WIDTH-0.5f , HEIGHT/2.0f-0.5f }` -/
def v2 : vec2 := ⟨(WIDTH : ℚ) - 1/2, (HEIGHT : ℚ) / 2 - 1/2⟩

/-- `edge_t edge0 = init_edge(v2, v1);` -/
def edge0 : edge := init_edge v2 v1

/-- `edge_t edge1 = init_edge(v0, v2);` -/
def edge1 : edge := init_edge v0 v2

/-- `edge_t edge2 = init_edge(v1, v0);` -/
def edge2 : edge := init_edge v1 v0

/-- `float area = edge0.c + edge1.c + edge2.c;` -/
def area : ℚ := edge0.c + edge1.c + edge2.c

/-- The sample point of pixel `(x, y)`: `vec2_t point = { x+0.5f, y+0.5f };` -/
def pixPoint (x y : Nat) : vec2 := ⟨(x : ℚ) + 1/2, (y : ℚ) + 1/2⟩

/-- `float d0 = test_edge(edge0, point);` at pixel `(x, y)`. -/
def d0 (x y : Nat) : ℚ := test_edge edge0 (pixPoint x y)

/-- `float d1 = test_edge(edge1, point);` at pixel `(x, y)`. -/
def d1 (x y : Nat) : ℚ := test_edge edge1 (pixPoint x y)

/-- `float d2 = test_edge(edge2, point);` at pixel `(x, y)`. -/
def d2 (x y : Nat) : ℚ := test_edge edge2 (pixPoint x y)

/-- The inside test of rast.c line 71: `d0 > 0.0f && d1 > 0.0f && d2 > 0.0f`. -/
def inside (x y : Nat) : Prop := d0 x y > 0 ∧ d1 x y > 0 ∧ d2 x y > 0

instance insideDec (x y : Nat) : Decidable (inside x y) := by
  unfold inside; infer_instance

/-- C truncating float-to-integer conversion (round toward zero). -/
def ratTrunc (q : ℚ) : Int := Int.tdiv q.num q.den

/-- The `(uint8_t)` cast applied to a (truncated) value: reduction mod 2^8. -/
def byteOfRat (q : ℚ) : Nat := ((ratTrunc q) % 256).toNat

/-- The byte stored to channel `ch` of an inside pixel `(x, y)`:
`(uint8_t)(i * 255.0f)` with `i = d0 / area`, and likewise `j`, `k`
(rast.c lines 76-83). -/
def chanVal (ch x y : Nat) : Nat :=
  if ch = 0 then byteOfRat (d0 x y / area * 255)
  else if ch = 1 then byteOfRat (d1 x y / area * 255)
  else byteOfRat (d2 x y / area * 255)

/-- Byte index of channel `ch` of pixel `(x, y)`: `(y*WIDTH+x)*3+ch`. -/
def pixIdx (x y ch : Nat) : Nat := (y * WIDTH + x) * 3 + ch

/-- A single store into the byte buffer (array assignment). -/
def upd (buf : Nat → Nat) (idx v : Nat) : Nat → Nat :=
  fun j => if j = idx then v else buf j

/-- The body of the double pixel loop at one pixel (rast.c lines 62-84):
test the three edges and, when all are positive, store the three
interpolated channel bytes. -/
def shadePixel (buf : Nat → Nat) (x y : Nat) : Nat → Nat :=
  if inside x y then
    upd (upd (upd buf (pixIdx x y 0) (chanVal 0 x y))
          (pixIdx x y 1) (chanVal 1 x y))
      (pixIdx x y 2) (chanVal 2 x y)
  else buf

/-- The inner loop `for (x=0; x<WIDTH; x++)` over one row `y`. -/
def rastRow (buf : Nat → Nat) (y : Nat) : Nat → Nat :=
  (List.range WIDTH).foldl (fun b x => shadePixel b x y) buf

/-- The buffer after `memset(pixels, 0x00, WIDTH*HEIGHT*3)`. -/
def buf0 : Nat → Nat := fun _ => 0

/-- The pixel buffer after the full double loop of `main` (rast.c lines 58-86). -/
def rasterize : Nat → Nat :=
  (List.range HEIGHT).foldl rastRow buf0

/-! ## The bitmap encoder (`save_pixels_as_bmp`, rast.c lines 118-152)

The byte buffer assembled before the `fwrite` is embedded as a `List Nat`
of byte values; the sequential pointer walk becomes list concatenation in
the same order. -/

/-- `const int padding = (4 - (w*3) % 4) % 4;` -/
def rowPad (w : Nat) : Nat := (4 - (w * 3) % 4) % 4

/-- `const int size = 54 + (w*3+padding)*h;` -/
def bmpSize (w h : Nat) : Nat := 54 + (w * 3 + rowPad w) * h

/-- The four bytes of a 32-bit little-endian field:
`(uint8_t)(n), (uint8_t)(n >> 8), (uint8_t)(n >> 16), (uint8_t)(n >> 24)`. -/
def le32 (n : Nat) : List Nat :=
  [n % 256, n / 256 % 256, n / 65536 % 256, n / 16777216 % 256]

/-- The 54-byte file-info and DIB header of rast.c lines 121-128. -/
def bmpHeader (w h : Nat) : List Nat :=
  [66, 77] ++ le32 (bmpSize w h) ++
  [0, 0, 0, 0, 54, 0, 0, 0, 40, 0, 0, 0] ++
  le32 w ++ le32 h ++ [1, 0, 24, 0] ++ List.replicate 24 0

/-- The three bytes emitted for pixel `(x, y)`: offsets 2, 1, 0 of the
pixel's triple, i.e. B, G, R order (rast.c lines 136-137). -/
def bmpPix (pixels : Nat → Nat) (w y x : Nat) : List Nat :=
  [pixels ((y * w + x) * 3 + 2), pixels ((y * w + x) * 3 + 1),
   pixels ((y * w + x) * 3 + 0)]

/-- One stored row `y`: pixels left to right, each emitted as the bytes at
offsets 2, 1, 0 (B, G, R), then the zero padding (rast.c lines 135-139). -/
def bmpRow (pixels : Nat → Nat) (w y : Nat) : List Nat :=
  (List.range w).flatMap (bmpPix pixels w y) ++ List.replicate (rowPad w) 0

/-- The whole byte buffer: header, then rows for `y = h-1` down to `0`
(rast.c lines 131-140). -/
def bmpBytes (pixels : Nat → Nat) (w h : Nat) : List Nat :=
  bmpHeader w h ++ (List.range h).reverse.flatMap (bmpRow pixels w)

/-! ## A bounds-checked view of the encoder's buffer reads

`bmpBytesChecked` performs exactly the reads of rast.c line 137, but through
`Option`-returning list indexing into a finite pixel list instead of a total
function: it fails iff some read is out of bounds. -/

def bmpRowChecked (pixels : List Nat) (w y : Nat) : Option (List Nat) :=
  (List.range w).foldr
    (fun x acc =>
      acc.bind fun rest =>
        (pixels[(y * w + x) * 3 + 2]?).bind fun b =>
          (pixels[(y * w + x) * 3 + 1]?).bind fun g =>
            (pixels[(y * w + x) * 3 + 0]?).bind fun r =>
              some (b :: g :: r :: rest))
    (some (List.replicate (rowPad w) 0))

def bmpBytesChecked (pixels : List Nat) (w h : Nat) : Option (List Nat) :=
  ((List.range h).reverse.foldr
    (fun y acc =>
      acc.bind fun rest =>
        (bmpRowChecked pixels w y).bind fun row => some (row ++ rest))
    (some [])).map (fun body => bmpHeader w h ++ body)

/-! ## The file write and the process exit status
(rast.c lines 89-92 and 142-151)

The only external effect is one `fopen`/`fwrite`; the file system is
embedded as an oracle saying which paths can be opened for writing. -/

structure FileSystem where
  canOpen : String → Bool

/-- `EXIT_SUCCESS` from `stdlib.h`. -/
def EXIT_SUCCESS : Nat := 0

/-- `EXIT_FAILURE` from `stdlib.h`. -/
def EXIT_FAILURE : Nat := 1

def singleQuote : String := String.singleton (Char.ofNat 39)

/-- The diagnostic printed on open failure (rast.c line 144). -/
def openFailMsg (path : String) : String :=
  "Failed to open file " ++ singleQuote ++ path ++ singleQuote ++ "\n"

/-- What a run of `save_pixels_as_bmp` leaves behind: the returned status,
the printed messages, and the bytes written to the file (if any). -/
structure SaveOutcome where
  exitCode : Nat
  messages : List String
  written : Option (List Nat)
deriving DecidableEq

/-- `save_pixels_as_bmp` (rast.c lines 118-152): build the byte buffer,
then open the path; on failure print the diagnostic and return
`EXIT_FAILURE` without writing; on success write the buffer and return
`EXIT_SUCCESS`. -/
def save_pixels_as_bmp (fs : FileSystem) (path : String)
    (pixels : Nat → Nat) (w h : Nat) : SaveOutcome :=
  if fs.canOpen path then
    { exitCode := EXIT_SUCCESS, messages := [],
      written := some (bmpBytes pixels w h) }
  else
    { exitCode := EXIT_FAILURE, messages := [openFailMsg path],
      written := none }

/-- The tail of `main` (rast.c lines 89-92): save the rasterized buffer to
`"result.bmp"` and return the encoder's status as the process exit code. -/
def mainOutcome (fs : FileSystem) : SaveOutcome :=
  save_pixels_as_bmp fs "result.bmp" rasterize WIDTH HEIGHT

def mainExit (fs : FileSystem) : Nat := (mainOutcome fs).exitCode

/-! ## Basic algebra of the edge functions -/

lemma area_eq : area = 195841 := by
  norm_num [area, edge0, edge1, edge2, init_edge, v0, v1, v2, WIDTH, HEIGHT]

lemma area_pos : 0 < area := by rw [area_eq]; norm_num

lemma area_ne_zero : area ≠ 0 := ne_of_gt area_pos

/-- The edge-sum identity: for any point, the three edge evaluations sum to
the sum of the three c-terms.  The a- and b-coefficients cancel in pairs. -/
lemma edge_sum_eval (p : vec2) :
    test_edge edge0 p + test_edge edge1 p + test_edge edge2 p = area := by
  simp only [test_edge, area, edge0, edge1, edge2, init_edge]
  ring

lemma d_sum (x y : Nat) : d0 x y + d1 x y + d2 x y = area :=
  edge_sum_eval (pixPoint x y)

lemma inside_256_256 : inside 256 256 := by
  norm_num [inside, d0, d1, d2, test_edge, edge0, edge1, edge2, init_edge,
    v0, v1, v2, pixPoint, WIDTH, HEIGHT]

lemma not_inside_0_0 : ¬ inside 0 0 := by
  norm_num [inside, d0, d1, d2, test_edge, edge0, edge1, edge2, init_edge,
    v0, v1, v2, pixPoint, WIDTH, HEIGHT]

/-! ## Characterizing the rasterized buffer -/

lemma pixIdx_inj {x y ch x' y' ch' : Nat}
    (hx : x < WIDTH) (hx' : x' < WIDTH) (hch : ch < 3) (hch' : ch' < 3)
    (h : pixIdx x y ch = pixIdx x' y' ch') : x = x' ∧ y = y' ∧ ch = ch' := by
  simp only [pixIdx, WIDTH] at *
  omega

lemma upd_self (buf : Nat → Nat) (i v : Nat) : upd buf i v i = v := by
  simp [upd]

lemma upd_other (buf : Nat → Nat) {i j : Nat} (v : Nat) (h : j ≠ i) :
    upd buf i v j = buf j := by
  simp [upd, h]

/-- A `shadePixel` at `(x, y)` does not touch the slots of a different pixel. -/
lemma shadePixel_other {x y x' y' ch' : Nat}
    (hx : x < WIDTH) (hx' : x' < WIDTH) (hch' : ch' < 3)
    (hne : x ≠ x' ∨ y ≠ y') (buf : Nat → Nat) :
    shadePixel buf x y (pixIdx x' y' ch') = buf (pixIdx x' y' ch') := by
  have hdiff : ∀ ch, ch < 3 → pixIdx x' y' ch' ≠ pixIdx x y ch := by
    intro ch hch h
    rcases pixIdx_inj hx' hx hch' hch h with ⟨h1, h2, _⟩
    rcases hne with h | h
    · exact h h1.symm
    · exact h h2.symm
  unfold shadePixel
  split
  · rw [upd_other _ _ (hdiff 2 (by norm_num)),
      upd_other _ _ (hdiff 1 (by norm_num)),
      upd_other _ _ (hdiff 0 (by norm_num))]
  · rfl

/-- A `shadePixel` at `(x, y)` sets that pixel's own slots iff the inside
test passes, and leaves them alone otherwise. -/
lemma shadePixel_self {x y ch : Nat} (hch : ch < 3) (buf : Nat → Nat) :
    shadePixel buf x y (pixIdx x y ch) =
      if inside x y then chanVal ch x y else buf (pixIdx x y ch) := by
  have base : ∀ c c' : Nat, c ≠ c' → pixIdx x y c ≠ pixIdx x y c' := by
    intro c c' hcc h
    simp only [pixIdx] at h
    omega
  unfold shadePixel
  split
  · interval_cases ch
    · rw [upd_other _ _ (base 0 2 (by norm_num)),
        upd_other _ _ (base 0 1 (by norm_num)), upd_self]
    · rw [upd_other _ _ (base 1 2 (by norm_num)), upd_self]
    · rw [upd_self]
  · rfl

/-- Effect of a prefix of the inner x-loop on a slot of a row it never
writes (`y ≠ y'`): the slot is preserved. -/
lemma rastRow_aux_ne (y x' y' ch : Nat) (hy : y ≠ y') (hx' : x' < WIDTH)
    (hch : ch < 3) :
    ∀ n, n ≤ WIDTH → ∀ buf : Nat → Nat,
      ((List.range n).foldl (fun b x => shadePixel b x y) buf) (pixIdx x' y' ch) =
        if x' < n ∧ y = y' then
          (if inside x' y' then chanVal ch x' y' else buf (pixIdx x' y' ch))
        else buf (pixIdx x' y' ch) := by
  intro n
  induction n with
  | zero =>
    intro _ buf
    rw [List.range_zero, List.foldl_nil,
      if_neg (fun hc => Nat.not_lt_zero x' hc.1)]
  | succ n ih =>
    intro hn buf
    rw [List.range_succ, List.foldl_append, List.foldl_cons, List.foldl_nil,
      shadePixel_other hn hx' hch (Or.inr hy), ih (Nat.le_of_succ_le hn) buf,
      if_neg (show ¬ (x' < n ∧ y = y') from fun hc => hy hc.2),
      if_neg (show ¬ (x' < n + 1 ∧ y = y') from fun hc => hy hc.2)]

/-- Effect of a prefix of the inner x-loop on a slot of its own row. -/
lemma rastRow_aux_eq (y x' ch : Nat) (hx' : x' < WIDTH) (hch : ch < 3) :
    ∀ n, n ≤ WIDTH → ∀ buf : Nat → Nat,
      ((List.range n).foldl (fun b x => shadePixel b x y) buf) (pixIdx x' y ch) =
        if x' < n ∧ y = y then
          (if inside x' y then chanVal ch x' y else buf (pixIdx x' y ch))
        else buf (pixIdx x' y ch) := by
  intro n
  induction n with
  | zero =>
    intro _ buf
    rw [List.range_zero, List.foldl_nil,
      if_neg (fun hc => Nat.not_lt_zero x' hc.1)]
  | succ n ih =>
    intro hn buf
    rw [List.range_succ, List.foldl_append, List.foldl_cons, List.foldl_nil]
    rcases Nat.lt_trichotomy x' n with h | h | h
    · rw [shadePixel_other hn hx' hch (Or.inl (Ne.symm (Nat.ne_of_lt h))),
        ih (Nat.le_of_succ_le hn) buf,
        if_pos (show x' < n ∧ y = y from ⟨h, rfl⟩),
        if_pos (show x' < n + 1 ∧ y = y from ⟨Nat.lt_succ_of_lt h, rfl⟩)]
    · subst h
      rw [shadePixel_self hch, ih (Nat.le_of_succ_le hn) buf,
        if_neg (show ¬ (x' < x' ∧ y = y) from fun hc => lt_irrefl x' hc.1),
        if_pos (show x' < x' + 1 ∧ y = y from ⟨Nat.lt_succ_self x', rfl⟩)]
    · rw [shadePixel_other hn hx' hch (Or.inl (Nat.ne_of_lt h)),
        ih (Nat.le_of_succ_le hn) buf,
        if_neg (show ¬ (x' < n ∧ y = y) from fun hc => absurd hc.1 (Nat.lt_asymm h)),
        if_neg (show ¬ (x' < n + 1 ∧ y = y) from
          fun hc => absurd h (Nat.not_lt.mpr (Nat.le_of_lt_succ hc.1)))]

/-- Effect of a prefix of the inner x-loop on a fixed slot. -/
lemma rastRow_aux (y x' y' ch : Nat) (hx' : x' < WIDTH) (hch : ch < 3) :
    ∀ n, n ≤ WIDTH → ∀ buf : Nat → Nat,
      ((List.range n).foldl (fun b x => shadePixel b x y) buf) (pixIdx x' y' ch) =
        if x' < n ∧ y = y' then
          (if inside x' y' then chanVal ch x' y' else buf (pixIdx x' y' ch))
        else buf (pixIdx x' y' ch) := by
  intro n hn buf
  by_cases hy : y = y'
  · subst hy
    exact rastRow_aux_eq y x' ch hx' hch n hn buf
  · exact rastRow_aux_ne y x' y' ch hy hx' hch n hn buf

/-- Effect of one full row of the x-loop on a fixed slot. -/
lemma rastRow_get (y x' y' ch : Nat) (hx' : x' < WIDTH) (hch : ch < 3)
    (buf : Nat → Nat) :
    rastRow buf y (pixIdx x' y' ch) =
      if y = y' then
        (if inside x' y' then chanVal ch x' y' else buf (pixIdx x' y' ch))
      else buf (pixIdx x' y' ch) := by
  unfold rastRow
  rw [rastRow_aux y x' y' ch hx' hch WIDTH le_rfl buf]
  by_cases hy : y = y'
  · rw [if_pos ⟨hx', hy⟩, if_pos hy]
  · rw [if_neg (fun hc => hy hc.2), if_neg hy]

/-- Effect of a prefix of the outer y-loop on a fixed slot. -/
lemma rasterize_aux (x' y' ch : Nat) (hx' : x' < WIDTH) (hch : ch < 3) :
    ∀ m, m ≤ HEIGHT → ∀ buf : Nat → Nat,
      ((List.range m).foldl rastRow buf) (pixIdx x' y' ch) =
        if y' < m then
          (if inside x' y' then chanVal ch x' y' else buf (pixIdx x' y' ch))
        else buf (pixIdx x' y' ch) := by
  intro m
  induction m with
  | zero =>
    intro _ buf
    rw [List.range_zero, List.foldl_nil, if_neg (Nat.not_lt_zero y')]
  | succ m ih =>
    intro hm buf
    rw [List.range_succ, List.foldl_append, List.foldl_cons, List.foldl_nil]
    rcases Nat.lt_trichotomy y' m with h | h | h
    · rw [rastRow_get m x' y' ch hx' hch, if_neg (ne_of_gt h),
        ih (Nat.le_of_succ_le hm) buf, if_pos h,
        if_pos (Nat.lt_succ_of_lt h)]
    · subst h
      rw [rastRow_get y' x' y' ch hx' hch, if_pos rfl,
        ih (Nat.le_of_succ_le hm) buf, if_neg (lt_irrefl y'),
        if_pos (Nat.lt_succ_self y')]
    · rw [rastRow_get m x' y' ch hx' hch, if_neg (ne_of_lt h),
        ih (Nat.le_of_succ_le hm) buf, if_neg (Nat.lt_asymm h),
        if_neg (show ¬ y' < m + 1 from
          fun hc => absurd h (Nat.not_lt.mpr (Nat.le_of_lt_succ hc)))]

/-- The central characterization: after the double loop, the slot of channel
`ch` of pixel `(x, y)` holds the interpolated channel byte when the pixel is
inside the triangle, and the initial zero otherwise. -/
lemma rasterize_get (x y ch : Nat) (hx : x < WIDTH) (hy : y < HEIGHT)
    (hch : ch < 3) :
    rasterize (pixIdx x y ch) = if inside x y then chanVal ch x y else 0 := by
  unfold rasterize
  rw [rasterize_aux x y ch hx hch HEIGHT le_rfl buf0, if_pos hy]
  simp only [buf0]

/-! ## Shape of the encoded byte stream -/

lemma bmpHeader_length (w h : Nat) : (bmpHeader w h).length = 54 := rfl

lemma flatMap_length_const {α β : Type} (f : α → List β) (m : Nat) :
    ∀ L : List α, (∀ a ∈ L, (f a).length = m) →
      (L.flatMap f).length = L.length * m := by
  intro L
  induction L with
  | nil => simp
  | cons a L ih =>
    intro hf
    simp only [List.flatMap_cons, List.length_append, List.length_cons,
      hf a (by simp), ih (fun b hb => hf b (by simp [hb]))]
    ring

lemma bmpRow_length (pixels : Nat → Nat) (w y : Nat) :
    (bmpRow pixels w y).length = w * 3 + rowPad w := by
  unfold bmpRow
  rw [List.length_append, List.length_replicate,
    flatMap_length_const (bmpPix pixels w y) 3 (List.range w) (fun a _ => rfl),
    List.length_range]

lemma bmpBytes_length (pixels : Nat → Nat) (w h : Nat) :
    (bmpBytes pixels w h).length = bmpSize w h := by
  unfold bmpBytes bmpSize
  rw [List.length_append, bmpHeader_length,
    flatMap_length_const (bmpRow pixels w) (w * 3 + rowPad w)
      (List.range h).reverse (fun a _ => bmpRow_length pixels w a),
    List.length_reverse, List.length_range]
  ring

/-- Indexing into a `flatMap` whose pieces all have length `m`. -/
lemma flatMap_getElem? {α β : Type} (f : α → List β) (m : Nat) :
    ∀ (L : List α) (idx j : Nat) (a : α), (∀ b ∈ L, (f b).length = m) →
      j < m → L[idx]? = some a → (L.flatMap f)[idx * m + j]? = (f a)[j]? := by
  intro L
  induction L with
  | nil => intro idx j a _ _ hget; simp at hget
  | cons b L ih =>
    intro idx j a hf hj hget
    cases idx with
    | zero =>
      simp only [List.getElem?_cons_zero, Option.some_inj] at hget
      subst hget
      rw [List.flatMap_cons, Nat.zero_mul, Nat.zero_add,
        List.getElem?_append_left (by rw [hf b (by simp)]; exact hj)]
    | succ n =>
      rw [List.flatMap_cons,
        List.getElem?_append_right
          (by rw [hf b (by simp)]; set k := n * m; rw [Nat.succ_mul]; omega)]
      rw [hf b (by simp)]
      have harith : (n + 1) * m + j - m = n * m + j := by
        set k := n * m
        rw [Nat.succ_mul]
        omega
      rw [harith]
      exact ih n j a (fun c hc => hf c (by simp [hc])) hj
        (by simpa using hget)

lemma bmpRow_getElem? (pixels : Nat → Nat) (w y x i : Nat)
    (hx : x < w) (hi : i < 3) :
    (bmpRow pixels w y)[x * 3 + i]? =
      some (pixels ((y * w + x) * 3 + (2 - i))) := by
  unfold bmpRow
  rw [List.getElem?_append_left
    (by rw [flatMap_length_const (bmpPix pixels w y) 3 (List.range w)
          (fun a _ => rfl), List.length_range]
        omega)]
  rw [flatMap_getElem? (bmpPix pixels w y) 3 (List.range w) x i x
    (fun a _ => rfl) hi (by simp [List.getElem?_range hx])]
  interval_cases i <;> rfl

/-- The byte at offset `x*3 + i` of the stored row for image row `y`
(which is row `h-1-y` of the pixel-data area) is the pixel byte at channel
`2 - i`: rows are written bottom to top and channels in B, G, R order. -/
lemma bmpBytes_pixel_getElem? (pixels : Nat → Nat) (w h x y i : Nat)
    (hx : x < w) (hy : y < h) (hi : i < 3) :
    (bmpBytes pixels w h)[54 + (h - 1 - y) * (w * 3 + rowPad w) + (x * 3 + i)]? =
      some (pixels ((y * w + x) * 3 + (2 - i))) := by
  unfold bmpBytes
  rw [List.getElem?_append_right (by rw [bmpHeader_length]; omega),
    bmpHeader_length]
  have harith : 54 + (h - 1 - y) * (w * 3 + rowPad w) + (x * 3 + i) - 54 =
      (h - 1 - y) * (w * 3 + rowPad w) + (x * 3 + i) := by
    set A := (h - 1 - y) * (w * 3 + rowPad w)
    omega
  rw [harith]
  rw [flatMap_getElem? (bmpRow pixels w) (w * 3 + rowPad w)
    (List.range h).reverse (h - 1 - y) (x * 3 + i) y
    (fun a _ => bmpRow_length pixels w a)
    (by set P := rowPad w; omega)
    (by rw [List.getElem?_reverse (by simp; omega), List.length_range]
        rw [show h - 1 - (h - 1 - y) = y by omega]
        simp [List.getElem?_range hy])]
  exact bmpRow_getElem? pixels w y x i hx hi

lemma bmpBytes_firstBytes (pixels : Nat → Nat) (w h : Nat) :
    (bmpBytes pixels w h)[0]? = some 66 ∧ (bmpBytes pixels w h)[1]? = some 77 := by
  exact ⟨rfl, rfl⟩

/-! ## Truncation and channel-value bounds -/

lemma ratTrunc_eq_floor (q : ℚ) (hq : 0 ≤ q) : ratTrunc q = ⌊q⌋ := by
  unfold ratTrunc
  rw [Rat.floor_def]
  exact Int.tdiv_eq_ediv (by exact_mod_cast Rat.num_nonneg.mpr hq)
    (by positivity)

lemma byteOfRat_of_bounds (q : ℚ) (h0 : 0 ≤ q) (h255 : q < 255) :
    byteOfRat q = (⌊q⌋).toNat ∧ byteOfRat q ≤ 254 := by
  unfold byteOfRat
  rw [ratTrunc_eq_floor q h0]
  have hf0 : 0 ≤ ⌊q⌋ := Int.floor_nonneg.mpr h0
  have hf : ⌊q⌋ < 255 := Int.floor_lt.mpr (by exact_mod_cast h255)
  rw [Int.emod_eq_of_lt hf0 (by omega)]
  exact ⟨rfl, by omega⟩

lemma inside_d_bounds (x y : Nat) (h : inside x y) :
    (0 < d0 x y ∧ d0 x y < area) ∧ (0 < d1 x y ∧ d1 x y < area) ∧
      (0 < d2 x y ∧ d2 x y < area) := by
  obtain ⟨h0, h1, h2⟩ := h
  have hsum := d_sum x y
  exact ⟨⟨h0, by linarith⟩, ⟨h1, by linarith⟩, ⟨h2, by linarith⟩⟩

lemma weight_mem_Ioo {d : ℚ} (hd0 : 0 < d) (hdA : d < area) :
    0 < d / area ∧ d / area < 1 :=
  ⟨div_pos hd0 area_pos, (div_lt_one area_pos).mpr hdA⟩

lemma weight_byte_le {d : ℚ} (hd0 : 0 < d) (hdA : d < area) :
    byteOfRat (d / area * 255) ≤ 254 := by
  obtain ⟨hw0, hw1⟩ := weight_mem_Ioo hd0 hdA
  exact (byteOfRat_of_bounds _ (by positivity) (by nlinarith)).2

lemma chanVal_le (ch x y : Nat) (h : inside x y) : chanVal ch x y ≤ 254 := by
  obtain ⟨⟨ha, hb⟩, ⟨hc, hd⟩, ⟨he, hf⟩⟩ := inside_d_bounds x y h
  unfold chanVal
  split
  · exact weight_byte_le ha hb
  · split
    · exact weight_byte_le hc hd
    · exact weight_byte_le he hf

lemma d2_val_256 : d2 256 256 = 65791 := by
  norm_num [d2, test_edge, edge2, init_edge, v0, v1, pixPoint, WIDTH, HEIGHT]

lemma d2_weight_256 : d2 256 256 / area * 255 = 16776705 / 195841 := by
  rw [d2_val_256, area_eq]
  norm_num

lemma chanVal2_256 : chanVal 2 256 256 = 85 := by
  have h1 : chanVal 2 256 256 = byteOfRat (d2 256 256 / area * 255) := by
    simp [chanVal]
  rw [h1, d2_weight_256]
  have hb := byteOfRat_of_bounds ((16776705 : ℚ) / 195841) (by norm_num)
    (by norm_num)
  rw [hb.1]
  have hfl : ⌊(16776705 : ℚ) / 195841⌋ = 85 := by
    rw [Int.floor_eq_iff]
    norm_num
  rw [hfl]
  rfl

/-! ## The checked encoder agrees with the unchecked one -/

lemma getElem?_eq_some_getD {l : List Nat} {i : Nat} (h : i < l.length) :
    l[i]? = some (l.getD i 0) := by
  simp [List.getElem?_eq_getElem h, List.getD_eq_getElem?_getD]

lemma pix_read_lt {w h x y : Nat} (hx : x < w) (hy : y < h) :
    (y * w + x) * 3 + 2 < w * h * 3 := by
  have h1 : y * w + x < h * w :=
    calc y * w + x < y * w + w := by omega
      _ = (y + 1) * w := by ring
      _ ≤ h * w := Nat.mul_le_mul_right w hy
  calc (y * w + x) * 3 + 2 < (y * w + x + 1) * 3 := by omega
    _ ≤ (h * w) * 3 := Nat.mul_le_mul_right 3 h1
    _ = w * h * 3 := by ring

lemma bmpRowChecked_eq_aux (pixels : List Nat) (w y : Nat) :
    ∀ L : List Nat, (∀ x ∈ L, (y * w + x) * 3 + 2 < pixels.length) →
      L.foldr
        (fun x acc =>
          acc.bind fun rest =>
            (pixels[(y * w + x) * 3 + 2]?).bind fun b =>
              (pixels[(y * w + x) * 3 + 1]?).bind fun g =>
                (pixels[(y * w + x) * 3 + 0]?).bind fun r =>
                  some (b :: g :: r :: rest))
        (some (List.replicate (rowPad w) 0)) =
      some (L.flatMap (bmpPix (fun idx => pixels.getD idx 0) w y) ++
        List.replicate (rowPad w) 0) := by
  intro L
  induction L with
  | nil => intro _; simp
  | cons x L ih =>
    intro hb
    have h2 : (y * w + x) * 3 + 2 < pixels.length := hb x (by simp)
    have h1 : (y * w + x) * 3 + 1 < pixels.length := by
      set k := (y * w + x) * 3; omega
    have h0 : (y * w + x) * 3 + 0 < pixels.length := by
      set k := (y * w + x) * 3; omega
    rw [List.foldr_cons, ih (fun a ha => hb a (by simp [ha])),
      getElem?_eq_some_getD h2, getElem?_eq_some_getD h1,
      getElem?_eq_some_getD h0]
    simp [bmpPix]

lemma bmpRowChecked_eq (pixels : List Nat) (w y : Nat)
    (hb : ∀ x, x < w → (y * w + x) * 3 + 2 < pixels.length) :
    bmpRowChecked pixels w y =
      some (bmpRow (fun idx => pixels.getD idx 0) w y) := by
  unfold bmpRowChecked bmpRow
  exact bmpRowChecked_eq_aux pixels w y (List.range w)
    (fun x hx => hb x (List.mem_range.mp hx))

lemma bmpBytesChecked_eq_aux (pixels : List Nat) (w h : Nat)
    (hlen : pixels.length = w * h * 3) :
    ∀ L : List Nat, (∀ y ∈ L, y < h) →
      L.foldr
        (fun y acc =>
          acc.bind fun rest =>
            (bmpRowChecked pixels w y).bind fun row => some (row ++ rest))
        (some []) =
      some (L.flatMap (bmpRow (fun idx => pixels.getD idx 0) w)) := by
  intro L
  induction L with
  | nil => intro _; simp
  | cons y L ih =>
    intro hb
    rw [List.foldr_cons, ih (fun a ha => hb a (by simp [ha])),
      bmpRowChecked_eq pixels w y
        (fun x hx => by rw [hlen]; exact pix_read_lt hx (hb y (by simp)))]
    simp

/-- When the pixel list has the allocated length `w*h*3`, every read of the
checked encoder succeeds and it produces exactly the unchecked byte stream. -/
lemma bmpBytesChecked_eq (pixels : List Nat) (w h : Nat)
    (hlen : pixels.length = w * h * 3) :
    bmpBytesChecked pixels w h =
      some (bmpBytes (fun idx => pixels.getD idx 0) w h) := by
  unfold bmpBytesChecked bmpBytes
  rw [bmpBytesChecked_eq_aux pixels w h hlen (List.range h).reverse
    (fun y hy => List.mem_range.mp (List.mem_reverse.mp hy))]
  rfl

/-! ## The claims -/

/-- C1 (counterexample): for the program's own vertices, the sum of the
three edges' c-terms is 195841, while the quoted shoelace expression
`(v1.x−v0.x)*(v2.y−v0.y) − (v2.x−v0.x)*(v1.y−v0.y)` evaluates to −195841:
the claimed equality fails at this concrete input. -/
theorem C1_counterexample :
    ¬ (edge0.c + edge1.c + edge2.c =
        (v1.x - v0.x) * (v2.y - v0.y) - (v2.x - v0.x) * (v1.y - v0.y)) := by
  norm_num [edge0, edge1, edge2, init_edge, v0, v1, v2, WIDTH, HEIGHT]

/-- C1 (amended): for every three vertices, the area computed as the sum of
the three edges' c-terms (edges built as edge(v2,v1), edge(v0,v2),
edge(v1,v0)) equals the negation of the quoted shoelace expression, i.e.
`(v2.x−v0.x)*(v1.y−v0.y) − (v1.x−v0.x)*(v2.y−v0.y)`: twice the signed area
for the opposite sign convention of the stated one. -/
theorem C1_area_is_negated_shoelace (t0 t1 t2 : vec2) :
    (init_edge t2 t1).c + (init_edge t0 t2).c + (init_edge t1 t0).c =
      (t2.x - t0.x) * (t1.y - t0.y) - (t1.x - t0.x) * (t2.y - t0.y) := by
  simp only [init_edge]
  ring

/-- C2: a canvas pixel receives the interpolated channel bytes iff all
three edge evaluations d0, d1, d2 at its center are strictly positive; in
particular a pixel whose sample point evaluates to exactly 0 for some edge
is not colored (its channels keep the cleared value 0). -/
theorem C2_inside_iff_all_positive (x y ch : Nat)
    (hx : x < WIDTH) (hy : y < HEIGHT) (hch : ch < 3) :
    rasterize (pixIdx x y ch) =
      (if d0 x y > 0 ∧ d1 x y > 0 ∧ d2 x y > 0 then chanVal ch x y else 0) ∧
    ((d0 x y = 0 ∨ d1 x y = 0 ∨ d2 x y = 0) →
      rasterize (pixIdx x y ch) = 0) := by
  have h := rasterize_get x y ch hx hy hch
  have hcond : ∀ b, (if inside x y then chanVal ch x y else b) =
      if d0 x y > 0 ∧ d1 x y > 0 ∧ d2 x y > 0 then chanVal ch x y else b := by
    intro b
    by_cases hin : inside x y
    · rw [if_pos hin, if_pos (by exact hin)]
    · rw [if_neg hin, if_neg (by exact hin)]
  constructor
  · rw [h, hcond]
  · intro h0
    rw [h, if_neg ?_]
    rintro ⟨g0, g1, g2⟩
    rcases h0 with e | e | e
    · rw [e] at g0; exact lt_irrefl 0 g0
    · rw [e] at g1; exact lt_irrefl 0 g1
    · rw [e] at g2; exact lt_irrefl 0 g2

/-- C2 witness at pixel (256, 256), channel 0. -/
theorem C2_witness :
    256 < WIDTH ∧ 256 < HEIGHT ∧ 0 < 3 ∧
      (rasterize (pixIdx 256 256 0) =
        (if d0 256 256 > 0 ∧ d1 256 256 > 0 ∧ d2 256 256 > 0 then
          chanVal 0 256 256 else 0) ∧
       ((d0 256 256 = 0 ∨ d1 256 256 = 0 ∨ d2 256 256 = 0) →
         rasterize (pixIdx 256 256 0) = 0)) :=
  ⟨by norm_num [WIDTH], by norm_num [HEIGHT], by norm_num,
   C2_inside_iff_all_positive 256 256 0 (by norm_num [WIDTH])
     (by norm_num [HEIGHT]) (by norm_num)⟩

/-- C3: for every point the three edge evaluations sum to the area (the sum
of the three c-terms), so for every inside pixel the weights
i = d0/area, j = d1/area, k = d2/area sum exactly to 1, and in particular
to 1 within the tolerance 1e-4. -/
theorem C3_weights_sum_to_one (p : vec2) (x y : Nat) (_hin : inside x y) :
    test_edge edge0 p + test_edge edge1 p + test_edge edge2 p = area ∧
    d0 x y / area + d1 x y / area + d2 x y / area = 1 ∧
    |d0 x y / area + d1 x y / area + d2 x y / area - 1| ≤ 1 / 10000 := by
  have hs : d0 x y / area + d1 x y / area + d2 x y / area = 1 := by
    rw [div_add_div_same, div_add_div_same, d_sum, div_self area_ne_zero]
  refine ⟨edge_sum_eval p, hs, ?_⟩
  rw [hs]
  norm_num

/-- C3 witness at the origin point and pixel (256, 256). -/
theorem C3_witness :
    inside 256 256 ∧
      (test_edge edge0 ⟨0, 0⟩ + test_edge edge1 ⟨0, 0⟩ +
          test_edge edge2 ⟨0, 0⟩ = area ∧
       d0 256 256 / area + d1 256 256 / area + d2 256 256 / area = 1 ∧
       |d0 256 256 / area + d1 256 256 / area + d2 256 256 / area - 1| ≤
         1 / 10000) :=
  ⟨inside_256_256, C3_weights_sum_to_one ⟨0, 0⟩ 256 256 inside_256_256⟩

/-- C4: for every inside pixel the weights are mapped to their 8-bit
channel values by the truncating (round-toward-zero) conversion of
weight * 255 — which on these nonnegative values is the floor, not
round-to-nearest — with i stored at offset 0 (red), j at offset 1 (green)
and k at offset 2 (blue); at pixel (256, 256) the blue weight times 255
exceeds 85 + 1/2 yet the stored byte is 85, where round-to-nearest would
store 86. -/
theorem C4_truncating_channel_conversion (x y : Nat)
    (hx : x < WIDTH) (hy : y < HEIGHT) (hin : inside x y) :
    rasterize (pixIdx x y 0) = byteOfRat (d0 x y / area * 255) ∧
    rasterize (pixIdx x y 1) = byteOfRat (d1 x y / area * 255) ∧
    rasterize (pixIdx x y 2) = byteOfRat (d2 x y / area * 255) ∧
    (∀ q : ℚ, 0 ≤ q → ratTrunc q = ⌊q⌋) ∧
    (chanVal 2 256 256 = 85 ∧ (85 : ℚ) + 1/2 < d2 256 256 / area * 255) := by
  refine ⟨?_, ?_, ?_, fun q hq => ratTrunc_eq_floor q hq,
    chanVal2_256, ?_⟩
  · rw [rasterize_get x y 0 hx hy (by norm_num), if_pos hin]
    simp [chanVal]
  · rw [rasterize_get x y 1 hx hy (by norm_num), if_pos hin]
    simp [chanVal]
  · rw [rasterize_get x y 2 hx hy (by norm_num), if_pos hin]
    simp [chanVal]
  · rw [d2_weight_256]
    norm_num

/-- C4 witness at pixel (256, 256). -/
theorem C4_witness :
    inside 256 256 ∧
      (rasterize (pixIdx 256 256 0) = byteOfRat (d0 256 256 / area * 255) ∧
       rasterize (pixIdx 256 256 1) = byteOfRat (d1 256 256 / area * 255) ∧
       rasterize (pixIdx 256 256 2) = byteOfRat (d2 256 256 / area * 255) ∧
       (∀ q : ℚ, 0 ≤ q → ratTrunc q = ⌊q⌋) ∧
       (chanVal 2 256 256 = 85 ∧
         (85 : ℚ) + 1/2 < d2 256 256 / area * 255)) :=
  ⟨inside_256_256,
   C4_truncating_channel_conversion 256 256 (by norm_num [WIDTH])
     (by norm_num [HEIGHT]) inside_256_256⟩

/-- C5: constructing an edge from the ordered pair (u, v) yields exactly
the coefficients a = u.y − v.y, b = v.x − u.x, c = u.x*v.y − u.y*v.x, and
evaluating any edge at a point (x, y) returns exactly a*x + b*y + c. -/
theorem C5_edge_coefficients (u v : vec2) (e : edge) (p : vec2) :
    (init_edge u v).a = u.y - v.y ∧
    (init_edge u v).b = v.x - u.x ∧
    (init_edge u v).c = u.x * v.y - u.y * v.x ∧
    test_edge e p = e.a * p.x + e.b * p.y + e.c :=
  ⟨rfl, rfl, rfl, rfl⟩

/-- C6: the encoded stream starts with bytes 'B' (66) and 'M' (77) of the
54-byte header; rows are stored bottom-to-top with each pixel's bytes in
B, G, R order (the byte at offset x*3+i of the stored row for image row y,
located at 54 + (h−1−y)*(w*3+padding), is the in-memory byte of channel
2−i); rows are padded with `(4 − (w*3) mod 4) mod 4` zero bytes; the total
length is 54 + (w*3+padding)*h, which for the 512×512 canvas is 786486. -/
theorem C6_bmp_serialization (pixels : Nat → Nat) (w h x y i : Nat)
    (hx : x < w) (hy : y < h) (hi : i < 3) :
    (bmpBytes pixels w h)[0]? = some 66 ∧
    (bmpBytes pixels w h)[1]? = some 77 ∧
    rowPad w = (4 - (w * 3) % 4) % 4 ∧
    (bmpBytes pixels w h).length = 54 + (w * 3 + rowPad w) * h ∧
    (bmpBytes pixels w h)[54 + (h - 1 - y) * (w * 3 + rowPad w) +
        (x * 3 + i)]? = some (pixels ((y * w + x) * 3 + (2 - i))) ∧
    (bmpBytes rasterize WIDTH HEIGHT).length = 786486 := by
  refine ⟨(bmpBytes_firstBytes pixels w h).1,
    (bmpBytes_firstBytes pixels w h).2, rfl, bmpBytes_length pixels w h,
    bmpBytes_pixel_getElem? pixels w h x y i hx hy hi, ?_⟩
  rw [bmpBytes_length]
  norm_num [bmpSize, rowPad, WIDTH, HEIGHT]

/-- C6 witness: a 1×1 canvas of one zero pixel, byte (0,0,0). -/
theorem C6_witness :
    0 < 1 ∧ 0 < 1 ∧ 0 < 3 ∧
      ((bmpBytes (fun _ => 0) 1 1)[0]? = some 66 ∧
       (bmpBytes (fun _ => 0) 1 1)[1]? = some 77 ∧
       rowPad 1 = (4 - (1 * 3) % 4) % 4 ∧
       (bmpBytes (fun _ => 0) 1 1).length = 54 + (1 * 3 + rowPad 1) * 1 ∧
       (bmpBytes (fun _ => 0) 1 1)[54 + (1 - 1 - 0) * (1 * 3 + rowPad 1) +
           (0 * 3 + 0)]? = some ((fun _ => 0 : Nat → Nat) ((0 * 1 + 0) * 3 + (2 - 0))) ∧
       (bmpBytes rasterize WIDTH HEIGHT).length = 786486) :=
  ⟨by norm_num, by norm_num, by norm_num,
   C6_bmp_serialization (fun _ => 0) 1 1 0 0 0 (by norm_num) (by norm_num)
     (by norm_num)⟩

/-- C7: every pixel classified outside (some edge evaluation not strictly
positive at its center) keeps its buffer bytes unchanged from the
pre-cleared buffer, i.e. its final value in each channel is 0. -/
theorem C7_outside_pixels_untouched (x y ch : Nat) (hx : x < WIDTH)
    (hy : y < HEIGHT) (hch : ch < 3) (hout : ¬ inside x y) :
    rasterize (pixIdx x y ch) = buf0 (pixIdx x y ch) ∧
      rasterize (pixIdx x y ch) = 0 := by
  rw [rasterize_get x y ch hx hy hch, if_neg hout]
  exact ⟨rfl, rfl⟩

/-- C7 witness at the outside pixel (0, 0), channel 0. -/
theorem C7_witness :
    0 < WIDTH ∧ 0 < HEIGHT ∧ 0 < 3 ∧ ¬ inside 0 0 ∧
      (rasterize (pixIdx 0 0 0) = buf0 (pixIdx 0 0 0) ∧
       rasterize (pixIdx 0 0 0) = 0) :=
  ⟨by norm_num [WIDTH], by norm_num [HEIGHT], by norm_num, not_inside_0_0,
   C7_outside_pixels_untouched 0 0 0 (by norm_num [WIDTH])
     (by norm_num [HEIGHT]) (by norm_num) not_inside_0_0⟩

/-- C8: when the output path cannot be opened, the encoder returns
`EXIT_FAILURE`, prints a diagnostic containing the path, and writes
nothing; when it can be opened, the encoder writes the byte stream and
returns `EXIT_SUCCESS`; `main` propagates the encoder's status as the
process exit code. -/
theorem C8_exit_behavior (fs : FileSystem) (path : String)
    (pixels : Nat → Nat) (w h : Nat) :
    (fs.canOpen path = false →
      (save_pixels_as_bmp fs path pixels w h).exitCode = EXIT_FAILURE ∧
      (save_pixels_as_bmp fs path pixels w h).written = none ∧
      ∃ pre post, (save_pixels_as_bmp fs path pixels w h).messages =
        [pre ++ path ++ post]) ∧
    (fs.canOpen path = true →
      (save_pixels_as_bmp fs path pixels w h).exitCode = EXIT_SUCCESS ∧
      (save_pixels_as_bmp fs path pixels w h).messages = [] ∧
      (save_pixels_as_bmp fs path pixels w h).written =
        some (bmpBytes pixels w h)) ∧
    mainExit fs =
      (save_pixels_as_bmp fs "result.bmp" rasterize WIDTH HEIGHT).exitCode := by
  refine ⟨fun hopen => ?_, fun hopen => ?_, rfl⟩
  · rw [save_pixels_as_bmp, if_neg (by rw [hopen]; exact Bool.false_ne_true)]
    refine ⟨rfl, rfl, "Failed to open file " ++ singleQuote,
      singleQuote ++ "\n", ?_⟩
    simp [openFailMsg, String.append_assoc]
  · rw [save_pixels_as_bmp, if_pos hopen]
    exact ⟨rfl, rfl, rfl⟩

/-- C8 witness: a file system on which no path opens, with the default
path and buffer. -/
theorem C8_witness :
    ((FileSystem.mk fun _ => false).canOpen "result.bmp" = false →
      (save_pixels_as_bmp (FileSystem.mk fun _ => false) "result.bmp"
          rasterize WIDTH HEIGHT).exitCode = EXIT_FAILURE ∧
      (save_pixels_as_bmp (FileSystem.mk fun _ => false) "result.bmp"
          rasterize WIDTH HEIGHT).written = none ∧
      ∃ pre post, (save_pixels_as_bmp (FileSystem.mk fun _ => false)
          "result.bmp" rasterize WIDTH HEIGHT).messages =
        [pre ++ "result.bmp" ++ post]) ∧
    ((FileSystem.mk fun _ => false).canOpen "result.bmp" = true →
      (save_pixels_as_bmp (FileSystem.mk fun _ => false) "result.bmp"
          rasterize WIDTH HEIGHT).exitCode = EXIT_SUCCESS ∧
      (save_pixels_as_bmp (FileSystem.mk fun _ => false) "result.bmp"
          rasterize WIDTH HEIGHT).messages = [] ∧
      (save_pixels_as_bmp (FileSystem.mk fun _ => false) "result.bmp"
          rasterize WIDTH HEIGHT).written =
        some (bmpBytes rasterize WIDTH HEIGHT)) ∧
    mainExit (FileSystem.mk fun _ => false) =
      (save_pixels_as_bmp (FileSystem.mk fun _ => false) "result.bmp"
        rasterize WIDTH HEIGHT).exitCode :=
  C8_exit_behavior (FileSystem.mk fun _ => false) "result.bmp" rasterize
    WIDTH HEIGHT

/-- C9: for the program's fixed vertices the area is 195841 > 0, so the
weight divisions never divide by zero; for every inside pixel each edge
evaluation d satisfies 0 < d < area, each weight d/area lies strictly in
(0, 1), and each truncated channel value is at most 254, so the `uint8_t`
cast never wraps. -/
theorem C9_area_positive_no_overflow (x y : Nat) (hin : inside x y) :
    area = 195841 ∧ 0 < area ∧
    (0 < d0 x y ∧ d0 x y < area) ∧ (0 < d1 x y ∧ d1 x y < area) ∧
    (0 < d2 x y ∧ d2 x y < area) ∧
    (0 < d0 x y / area ∧ d0 x y / area < 1) ∧
    (0 < d1 x y / area ∧ d1 x y / area < 1) ∧
    (0 < d2 x y / area ∧ d2 x y / area < 1) ∧
    (∀ ch, ch < 3 → chanVal ch x y ≤ 254) := by
  obtain ⟨⟨a1, a2⟩, ⟨b1, b2⟩, ⟨c1, c2⟩⟩ := inside_d_bounds x y hin
  exact ⟨area_eq, area_pos, ⟨a1, a2⟩, ⟨b1, b2⟩, ⟨c1, c2⟩,
    weight_mem_Ioo a1 a2, weight_mem_Ioo b1 b2, weight_mem_Ioo c1 c2,
    fun ch _ => chanVal_le ch x y hin⟩

/-- C9 witness at pixel (256, 256). -/
theorem C9_witness :
    inside 256 256 ∧
      (area = 195841 ∧ 0 < area ∧
       (0 < d0 256 256 ∧ d0 256 256 < area) ∧
       (0 < d1 256 256 ∧ d1 256 256 < area) ∧
       (0 < d2 256 256 ∧ d2 256 256 < area) ∧
       (0 < d0 256 256 / area ∧ d0 256 256 / area < 1) ∧
       (0 < d1 256 256 / area ∧ d1 256 256 / area < 1) ∧
       (0 < d2 256 256 / area ∧ d2 256 256 / area < 1) ∧
       (∀ ch, ch < 3 → chanVal ch 256 256 ≤ 254)) :=
  ⟨inside_256_256, C9_area_positive_no_overflow 256 256 inside_256_256⟩

/-- C10: the rasterizer's write index stays below the allocation
WIDTH*HEIGHT*3 for every in-range pixel and channel; and with a pixel list
of the allocated length w*h*3, the bounds-checked encoder (every read an
`Option`-returning index) succeeds, and the bytes it emits are exactly the
allocated size. -/
theorem C10_memory_safety (x y ch : Nat) (hx : x < WIDTH) (hy : y < HEIGHT)
    (hch : ch < 3) (pixels : List Nat) (w h : Nat)
    (hlen : pixels.length = w * h * 3) :
    pixIdx x y ch < WIDTH * HEIGHT * 3 ∧
    (bmpBytesChecked pixels w h).isSome = true ∧
    (∀ out, bmpBytesChecked pixels w h = some out →
      out.length = bmpSize w h) := by
  refine ⟨?_, ?_, ?_⟩
  · simp only [pixIdx, WIDTH, HEIGHT] at *
    omega
  · rw [bmpBytesChecked_eq pixels w h hlen]
    rfl
  · intro out hout
    rw [bmpBytesChecked_eq pixels w h hlen] at hout
    injection hout with hout
    rw [← hout]
    exact bmpBytes_length _ w h

/-- C10 witness: pixel (0,0,0) and a 1×1 pixel list of length 3. -/
theorem C10_witness :
    0 < WIDTH ∧ 0 < HEIGHT ∧ 0 < 3 ∧
      (List.replicate 3 0).length = 1 * 1 * 3 ∧
      (pixIdx 0 0 0 < WIDTH * HEIGHT * 3 ∧
       (bmpBytesChecked (List.replicate 3 0) 1 1).isSome = true ∧
       (∀ out, bmpBytesChecked (List.replicate 3 0) 1 1 = some out →
         out.length = bmpSize 1 1)) :=
  ⟨by norm_num [WIDTH], by norm_num [HEIGHT], by norm_num, by norm_num,
   C10_memory_safety 0 0 0 (by norm_num [WIDTH]) (by norm_num [HEIGHT])
     (by norm_num) (List.replicate 3 0) 1 1 (by norm_num)⟩

end MiniRast
